import Mathlib

/-!
Verification development for the template-compiler core: the expression
processor (`src/crates/compiler/src/transformer/process_expression.rs`) and
the code generator (`src/crates/compiler/src/codegen.rs`), shallowly
embedded in Lean.

Conventions of the embedding:
* `VStr` is modelled as `String` (the raw text with its transformations
  already applied).
* Rust byte offsets from the external walker are modelled as character
  offsets into the expression text.
* `todo!()` sites of the source are modelled as `Except.error` with a
  `Panic` value naming the site; all other code paths are pure.
* External capabilities (JS parser, free-variable walker, global
  allow-list, hoisted-asset predicate -- out of scope per the spec, their
  code is not under `src/`) are fields of a `Caps` record that the
  embedded functions take as an argument.
-/

/-- StaticLevel, from `crate::flags` (not under `src/`).
Modelled from the spec: ordered levels
NotStatic < CanSkipPatch < CanStringify/CanHoist. -/
inductive StaticLevel where
  | NotStatic
  | CanSkipPatch
  | CanStringify
  | CanHoist
deriving DecidableEq, Repr

/-- RuntimeHelper, from `crate::flags` (not under `src/`): the runtime
symbols the two in-scope files mention. Modelled from the spec
("enumeration of runtime-library symbols"). -/
inductive RuntimeHelper where
  | Fragment
  | OpenBlock
  | CreateBlock
  | CreateElementBlock
  | CreateVnode
  | CreateElementVnode
  | WithDirectives
  | Unref
  | IsRef
deriving DecidableEq, Repr

/-- Modelled from the spec: `RuntimeHelper::helper_str` is not under
`src/`; the runtime-convention name of each helper, emitted after the `_`
sigil by `write_helper`. -/
def helperStr : RuntimeHelper → String
  | .Fragment => "Fragment"
  | .OpenBlock => "openBlock"
  | .CreateBlock => "createBlock"
  | .CreateElementBlock => "createElementBlock"
  | .CreateVnode => "createVNode"
  | .CreateElementVnode => "createElementVNode"
  | .WithDirectives => "withDirectives"
  | .Unref => "unref"
  | .IsRef => "isRef"

/-- `CodeWriter::write_helper`: writes `_` then the helper's name. -/
def writeHelper (h : RuntimeHelper) : String := "_" ++ helperStr h

/-- BindingTypes, from `crate::converter` (not under `src/`). Modelled
from the spec: the seven identifier-origin classifications. -/
inductive BindingTypes where
  | SetupConst
  | SetupRef
  | SetupMaybeRef
  | SetupLet
  | Props
  | Data
  | Options
deriving DecidableEq, Repr

/-- JsExpr, from `crate::converter` (not under `src/`). Modelled from the
spec's data model: raw source slice, string literal, simple
expression+static-level, symbolic runtime-helper reference, properties
list, compound (ordered concatenation), array, call(helper,args),
parameter marker. -/
inductive Js where
  | Src (s : String)
  | StrLit (s : String)
  | Simple (text : String) (level : StaticLevel)
  | Symbol (h : RuntimeHelper)
  | Props (ps : List (Js × Js))
  | Compound (es : List Js)
  | Array (es : List Js)
  | Call (h : RuntimeHelper) (args : List Js)
  | Param (name : String)
deriving Repr

/-- Whether an expression is a raw source slice. -/
def Js.isSrc : Js → Bool
  | .Src _ => true
  | _ => false

/-- Modelled from the spec: `VStr::prefix_ctx` (in `crate::util`, not
under `src/`) prepends the render-context access path, producing
`_ctx.<name>`. -/
def prefixCtx (s : String) : String := "_ctx." ++ s

/-- Modelled from the spec: the `Js::simple` constructor function (in
`crate::converter`, not under `src/`) builds a simple expression; the
fallback rewrite "expects prior level NotStatic" per the spec, so the
level is NotStatic. -/
def Js.simple (s : String) : Js := Js.Simple s StaticLevel.NotStatic

/-- The write-context tag `CtxType` of `process_expression.rs`. -/
inductive CtxType where
  | Assign (assign : Js)
  | Update (isPre : Bool) (op : Js)
  | Destructure
  | NoWrite

/-- A free-variable reference reported by the external walker: its text
and its half-open range in the expression source. -/
structure FreeVar where
  text : String
  start : Nat
  stop : Nat

/-- The `Atom` of `process_expression.rs`: a surviving reference with its
range, the source slice at that range, and its write context. -/
structure Atom where
  start : Nat
  stop : Nat
  idStr : String
  ctxType : CtxType

/-- The template scope: a set of in-reach identifier names. `Scope` lives
in the transformer module root (not under `src/`); modelled from the spec:
"mutable set of in-reach identifier names". -/
structure Scope where
  identifiers : List String

def Scope.hasIdentifier (s : Scope) (v : String) : Bool := s.identifiers.contains v

def emptyScope : Scope := ⟨[]⟩

/-- The character-range slice of a string, by character offsets
(modelling the source's byte-range slices `&raw[a..b]`). -/
def strSlice (s : String) (a b : Nat) : String := String.mk ((s.data.drop a).take (b - a))

/-- The tail slice `&raw[a..]`. -/
def strSliceFrom (s : String) (a : Nat) : String := String.mk (s.data.drop a)

/-- Modelled from the spec: `is_simple_identifier` (in `crate::util`, not
under `src/`): the text is exactly one bare identifier. -/
def isSimpleIdentifier (s : String) : Bool :=
  match s.data with
  | [] => false
  | c :: rest =>
    (c.isAlpha || c == '_' || c == '$') &&
      rest.all (fun d => d.isAlphanum || d == '_' || d == '$')

/-- The literal keywords of the fast path: `true | false | null | this`. -/
def isLiteralKeyword (s : String) : Bool :=
  s == "true" || s == "false" || s == "null" || s == "this"

/-- A minimal JS-expression AST for the external parser capability
(member-access chains suffice for the inputs the development evaluates).
Modelled from the spec: the JS-expression-text parser and free-variable
walker are external collaborators, interfaces only. -/
inductive JsAst where
  | ident (name : String) (start : Nat)
  | member (obj : JsAst) (prop : String)

/-- Modelled from the spec: free-variable references with ranges, with
standard JS semantics -- the object of a member expression is the free
reference, the property name is not. -/
def astFreeVars : JsAst → List FreeVar
  | .ident n s => [⟨n, s, s + n.data.length⟩]
  | .member o _ => astFreeVars o

/-- Splits a character list at each `.` (kernel-friendly stand-in for
`String.splitOn "."`). -/
def splitCharsOnDot : List Char → List (List Char)
  | [] => [[]]
  | c :: rest =>
    if c == '.' then [] :: splitCharsOnDot rest
    else
      match splitCharsOnDot rest with
      | [] => [[c]]
      | p :: ps => (c :: p) :: ps

/-- Left-nests a member chain onto a base expression. -/
def buildChain (acc : JsAst) : List String → JsAst
  | [] => acc
  | q :: qs => buildChain (.member acc q) qs

/-- Modelled from the spec: the external `parse(text) -> Option<AST>`
capability, realized for identifier member chains (`a`, `a.b`, `_ctx.x`);
any other text fails to parse. -/
def miniParse (s : String) : Option JsAst :=
  match (splitCharsOnDot s.data).map String.mk with
  | [] => none
  | p :: ps =>
    if (p :: ps).all (fun q => isSimpleIdentifier q) then
      some (buildChain (JsAst.ident p 0) ps)
    else none

/-- The external capabilities consumed by the expression processor
(spec sect. 6): global allow-list, hoisted-asset predicate, JS parser and
free-variable walker. -/
structure Caps where
  isGlobalAllowListed : String → Bool
  isHoistedAsset : Js → Bool
  parseJsExpr : String → Option JsAst
  walkFreeVariables : JsAst → List FreeVar

/-- TransformOption: the fields `process_expression.rs` consumes. -/
structure TransformOption where
  prefixIdentifier : Bool
  inline : Bool
  bindingMetadata : List (String × BindingTypes)

/-- `binding_metadata.get`: look the identifier up in the binding table. -/
def TransformOption.get (o : TransformOption) (name : String) : Option BindingTypes :=
  (o.bindingMetadata.find? (fun p => p.1 == name)).map (fun p => p.2)

/-- The `todo!()` / panic sites of the embedded source, as error values. -/
inductive Panic where
  | todoErrorHandler
  | todoInlineCtx
  | todoGen (site : String)
deriving DecidableEq, Repr

/-- `rewrite_setup_let` of `process_expression.rs`. -/
def rewriteSetupLet (ctx : CtxType) (expr : Unit → Js) (dotValue : Js) : Js :=
  match ctx with
  | .Assign assign =>
    .Compound [.Call .IsRef [expr ()], .Src "? ", dotValue, assign, .Src ": ", expr (), assign]
  | .Update isPre op =>
    -- mirrors the `push` closure: pre extends [op, val], post extends [val, op]
    let pushed := fun (val opv : Js) => if isPre then [opv, val] else [val, opv]
    .Compound ([Js.Call .IsRef [expr ()], Js.Src "? "] ++ pushed dotValue op
      ++ [Js.Src ": "] ++ pushed (expr ()) op)
  | .Destructure => expr ()
  | .NoWrite => .Call .Unref [expr ()]

/-- `rewrite_inline_identifier` of `process_expression.rs`. -/
def rewriteInlineIdentifier (raw : String) (level : StaticLevel) (bind : BindingTypes)
    (ctx : CtxType) : Js :=
  let expr := fun (_ : Unit) => Js.Simple raw level
  let dotValue := Js.Compound [expr (), Js.Src ".value"]
  match bind with
  | .SetupConst => expr ()
  | .SetupRef => dotValue
  | .SetupMaybeRef =>
    match ctx with
    | .NoWrite => Js.Call .Unref [expr ()]
    | _ => dotValue
  | .SetupLet => rewriteSetupLet ctx expr dotValue
  | .Props => Js.Compound [Js.Src "__props.", expr ()]
  | .Data => Js.Compound [Js.Src "_ctx.", expr ()]
  | .Options => Js.Compound [Js.Src "_ctx.", expr ()]

/-- Modelled from the spec: `BindingTypes::get_js_prop` (in
`crate::converter`, not under `src/`) is the non-inline binding rewrite;
the spec gives a single binding-rewrite table (sect. 4.2), applied here in
its read form (`get_js_prop` takes no write context). -/
def BindingTypes.getJsProp (b : BindingTypes) (raw : String) (level : StaticLevel) : Js :=
  match b with
  | .SetupConst => .Simple raw level
  | .SetupRef => .Compound [.Simple raw level, .Src ".value"]
  | .SetupMaybeRef => .Call .Unref [.Simple raw level]
  | .SetupLet => .Call .Unref [.Simple raw level]
  | .Props => .Compound [.Src "__props.", .Simple raw level]
  | .Data => .Compound [.Src "_ctx.", .Simple raw level]
  | .Options => .Compound [.Src "_ctx.", .Simple raw level]

/-- `rewrite_identifier` of `process_expression.rs`: dispatch on the
binding table and the inline option; fall back to `_ctx.<name>`. -/
def rewriteIdentifier (opts : TransformOption) (raw : String) (level : StaticLevel)
    (ctx : CtxType) : Js :=
  match opts.get raw with
  | some bind =>
    if opts.inline then rewriteInlineIdentifier raw level bind ctx
    else bind.getJsProp raw level
  | none => Js.simple (prefixCtx raw)

/-- `process_expr_fast` of `process_expression.rs`: `some e2` models
"returned true, expression now e2"; `none` models "returned false". -/
def processExprFast (opts : TransformOption) (caps : Caps) (scope : Scope) (e : Js) :
    Option Js :=
  match e with
  | .Simple v level =>
    if !isSimpleIdentifier v then none
    else
      let isScopeReference := scope.hasIdentifier v
      let isAllowedGlobal := caps.isGlobalAllowListed v
      let isLiteral := isLiteralKeyword v
      if !isScopeReference && !isAllowedGlobal && !isLiteral then
        let lvl := match opts.get v with
          | some BindingTypes.SetupConst => StaticLevel.CanSkipPatch
          | _ => level
        some (rewriteIdentifier opts v lvl CtxType.NoWrite)
      else if !isScopeReference then
        some (Js.Simple v (if isLiteral then .CanStringify else .CanHoist))
      else
        some (Js.Simple v level)
  | _ => none

/-- The free-variable visitation loop of `break_down_complex_expression`:
skip allow-listed globals and `require`, skip identifiers defined in the
template scope, and collect the rest as atoms. The inline branch of
`ctx_type` is `todo!()` in the source. -/
def collectAtoms (opts : TransformOption) (caps : Caps) (raw : String) (scope : Scope) :
    List FreeVar → Except Panic (List Atom)
  | [] => .ok []
  | fv :: rest =>
    if caps.isGlobalAllowListed fv.text || fv.text == "require" then
      collectAtoms opts caps raw scope rest
    else
      let idStr := strSlice raw fv.start fv.stop
      if scope.hasIdentifier idStr then
        collectAtoms opts caps raw scope rest
      else if opts.inline then .error .todoInlineCtx
      else do
        let tail ← collectAtoms opts caps raw scope rest
        .ok (Atom.mk fv.start fv.stop idStr CtxType.NoWrite :: tail)

/-- `atoms.sort_by_key(|r| r.range.start)`: a stable sort by start offset
(the stable sort by a total preorder is unique, so insertion sort is the
same function). -/
def sortByStart (atoms : List Atom) : List Atom :=
  List.insertionSort (fun a b => a.start ≤ b.start) atoms

/-- `break_down_complex_expression` of `process_expression.rs`: parse
(failure is the `todo!("add error handler")` panic), walk free variables,
filter, sort by range start. -/
def breakDownComplexExpression (opts : TransformOption) (caps : Caps) (raw : String)
    (scope : Scope) : Except Panic (List Atom) :=
  match caps.parseJsExpr raw with
  | none => .error .todoErrorHandler
  | some expr => do
    let atoms ← collectAtoms opts caps raw scope (caps.walkFreeVariables expr)
    .ok (sortByStart atoms)

/-- The loop body of `reunite_atoms`: raw gap slices interleaved with
rewritten identifiers, and the raw tail. -/
def reuniteInner (opts : TransformOption) (raw : String) : Nat → List Atom → List Js
  | last, [] =>
    if last < raw.data.length then [Js.Src (strSliceFrom raw last)] else []
  | last, a :: rest =>
    (if last < a.start then [Js.Src (strSlice raw last a.start)] else []) ++
      rewriteIdentifier opts a.idStr StaticLevel.NotStatic a.ctxType ::
        reuniteInner opts raw a.stop rest

/-- `reunite_atoms` of `process_expression.rs`. -/
def reuniteAtoms (opts : TransformOption) (raw : String) (atoms : List Atom) : Js :=
  Js.Compound (reuniteInner opts raw 0 atoms)

/-- `process_with_js_parser` of `process_expression.rs`. -/
def processWithJsParser (opts : TransformOption) (caps : Caps) (scope : Scope) (e : Js) :
    Except Panic Js :=
  match e with
  | .Simple v _level => do
    let atoms ← breakDownComplexExpression opts caps v scope
    .ok (reuniteAtoms opts v atoms)
  | _ => .ok e

/-- `process_expression` of `process_expression.rs`: no-op unless
prefixing is on, no-op for hoisted assets and non-simple expressions,
else fast path then slow path. -/
def processExpression (opts : TransformOption) (caps : Caps) (scope : Scope) (e : Js) :
    Except Panic Js :=
  if !opts.prefixIdentifier then .ok e
  else if caps.isHoistedAsset e then .ok e
  else
    match e with
    | .Simple v level =>
      match processExprFast opts caps scope (Js.Simple v level) with
      | some e2 => .ok e2
      | none => processWithJsParser opts caps scope (Js.Simple v level)
    | _ => .ok e

/-! ## Code generator (`codegen.rs`) -/

/-- Modelled from the spec: the escaping `VStr::be_js_str` applies (in
`crate::util`, not under `src/`): quote the text for JS. -/
def jsEscapeChar (c : Char) : String :=
  if c == '"' then "\\\""
  else if c == '\\' then "\\\\"
  else if c == '\n' then "\\n"
  else String.mk [c]

/-- A string literal quoted and escaped for JS. -/
def jsStrLit (s : String) : String :=
  "\"" ++ String.join (s.data.map jsEscapeChar) ++ "\""

mutual

/-- `generate_js_expr` of `codegen.rs`: emission of each `JsExpr`
variant; the properties-object branch is `todo!()`. -/
def genJsExpr : Js → Except Panic String
  | .Src s => .ok s
  | .StrLit l => .ok (jsStrLit l)
  | .Simple e _ => .ok e
  | .Symbol s => .ok (writeHelper s)
  | .Props _ => .error (.todoGen "props")
  | .Param _ => .error (.todoGen "param emission is outside the visible source")
  | .Compound v => genJsSeq v
  | .Array a => do
    .ok ("[" ++ (← genJsCommaList a) ++ "]")
  | .Call c args => do
    .ok (writeHelper c ++ "(" ++ (← genJsCommaList args) ++ ")")

/-- The compound branch: sequential emission with no separator. -/
def genJsSeq : List Js → Except Panic String
  | [] => .ok ""
  | e :: rest => do
    .ok ((← genJsExpr e) ++ (← genJsSeq rest))

/-- `gen_list` of `codegen.rs`: a comma-separated list; empty writes
nothing and returns success. -/
def genJsCommaList : List Js → Except Panic String
  | [] => .ok ""
  | e :: rest => do
    .ok ((← genJsExpr e) ++ (← genJsCommaRest rest))

/-- The tail of `gen_list`: each further element after `", "`. -/
def genJsCommaRest : List Js → Except Panic String
  | [] => .ok ""
  | e :: rest => do
    .ok (", " ++ (← genJsExpr e) ++ (← genJsCommaRest rest))

end

/-- The tail of `generate_text`: each further text after `" + "`. -/
def genTextRest : List Js → Except Panic String
  | [] => .ok ""
  | t :: rest => do
    .ok (" + " ++ (← genJsExpr t) ++ (← genTextRest rest))

/-- `generate_text` of `codegen.rs`: concatenate texts with `" + "`;
zero entries emit nothing. -/
def generateText : List Js → Except Panic String
  | [] => .ok ""
  | t :: rest => do
    .ok ((← genJsExpr t) ++ (← genTextRest rest))

/-- Modelled from the spec: `PatchFlag` (in `crate::flags`, not under
`src/`) is a bitset of change reasons; these are the change-reason names
behind its Debug formatting. -/
def patchFlagTable : List (Nat × String) :=
  [(1, "TEXT"), (2, "CLASS"), (4, "STYLE"), (8, "PROPS"), (16, "FULL_PROPS"),
   (32, "HYDRATE_EVENTS"), (64, "STABLE_FRAGMENT"), (128, "KEYED_FRAGMENT"),
   (256, "UNKEYED_FRAGMENT"), (512, "NEED_PATCH"), (1024, "DYNAMIC_SLOTS"),
   (2048, "DEV_ROOT_FRAGMENT")]

/-- Modelled from the spec: the bitset's Debug form, the set flags'
names. -/
def patchFlagNames (pf : Nat) : String :=
  String.intercalate " | "
    ((patchFlagTable.filter (fun p => pf / p.1 % 2 == 1)).map (fun p => p.2))

/-- The patch-flag argument: its integer value with a debug comment of
flag names (`write!(.., "{} /*{:?}*/", ..)`). -/
def patchFlagText (pf : Nat) : String :=
  toString pf ++ " /*" ++ patchFlagNames pf ++ "*/"

/-- The helper matrix of `gen_vnode_real`:
{block x component} selects the creation call. -/
def vnodeCallHelper (isBlock isComponent : Bool) : RuntimeHelper :=
  if isBlock then
    if isComponent then .CreateBlock else .CreateElementBlock
  else
    if isComponent then .CreateVnode else .CreateElementVnode

/-- Pass 1 of the `gen_vnode_args!` macro: the loop
`j += 1; if cond { i = j; }` over the slots, starting from `(j, i) =
(0, 0)`; the result is `i`, the last 1-based index with a true
condition. -/
def argsPass1 (slots : List (Bool × Except Panic String)) : Nat :=
  (slots.foldl (fun (p : Nat × Nat) s => (p.1 + 1, if s.1 then p.1 + 1 else p.2)) (0, 0)).2

/-- Pass 2 of the `gen_vnode_args!` macro: emit the value (comma-separated)
when the predicate is true, a `null` placeholder when false but below `i`,
and return as soon as the index reaches `i` with a false predicate. -/
def argsPass2 (i : Nat) : Nat → List (Bool × Except Panic String) → Except Panic String
  | _, [] => .ok ""
  | j, (c, es) :: rest =>
    if c then do
      let s ← es
      let r ← argsPass2 i (j + 1) rest
      .ok ((if 0 < j then ", " else "") ++ s ++ r)
    else if j < i then do
      let r ← argsPass2 i (j + 1) rest
      .ok (", null" ++ r)
    else .ok ""

/-- The two passes of `gen_vnode_args!` over ordered (predicate,
generator) slots. -/
def genVnodeArgsRun (slots : List (Bool × Except Panic String)) : Except Panic String :=
  argsPass2 (argsPass1 slots) 0 slots

/-- The props slot generator (`props.unwrap()` guarded by the
`props.is_some()` predicate; the `none` value is never emitted). -/
def genVnodePropsSlot : Option Js → Except Panic String
  | some p => genJsExpr p
  | none => .ok ""

/-- `gen_vnode_call_args` of `codegen.rs`, over the five vnode fields;
the children argument's generated text is passed in pre-generated (the
children loop runs through `generate_ir`, see `genIr`). -/
def genVnodeCallArgs (tag : Js) (props : Option Js) (childrenEmpty : Bool)
    (childrenE : Except Panic String) (pf : Nat) (dyn : List String) :
    Except Panic String :=
  genVnodeArgsRun
    [(true, genJsExpr tag),
     (props.isSome, genVnodePropsSlot props),
     (!childrenEmpty, childrenE),
     (pf != 0, .ok (patchFlagText pf)),
     (!dyn.isEmpty, genJsExpr (Js.Array (dyn.map Js.StrLit)))]

/-- `gen_vnode_real` of `codegen.rs`: the matrix-selected helper applied
to the vnode call arguments. -/
def genVnodeReal (isBlock isComponent : Bool) (tag : Js) (props : Option Js)
    (childrenEmpty : Bool) (childrenE : Except Panic String) (pf : Nat)
    (dyn : List String) : Except Panic String := do
  .ok (writeHelper (vnodeCallHelper isBlock isComponent) ++ "(" ++
    (← genVnodeCallArgs tag props childrenEmpty childrenE pf dyn) ++ ")")

/-- `gen_vnode_with_block` of `codegen.rs`: block vnodes are wrapped in
`(openBlock(<true-if-tracking-disabled>), <creation-call>)`. -/
def genVnodeWithBlock (isBlock disableTracking isComponent : Bool) (tag : Js)
    (props : Option Js) (childrenEmpty : Bool) (childrenE : Except Panic String)
    (pf : Nat) (dyn : List String) : Except Panic String :=
  if !isBlock then
    genVnodeReal isBlock isComponent tag props childrenEmpty childrenE pf dyn
  else do
    .ok ("(" ++ writeHelper .OpenBlock ++ "(" ++ (if disableTracking then "true" else "")
      ++ "), " ++
      (← genVnodeReal isBlock isComponent tag props childrenEmpty childrenE pf dyn)
      ++ ")")

/-- `gen_vnode_with_dir` of `codegen.rs`: with directives present the
vnode is wrapped in `withDirectives(...)`, whose directive-array
construction (`runtime_dirs_to_js_arr`) is `todo!()` in the source. -/
def genVnodeWithDir (dirsEmpty : Bool) (isBlock disableTracking isComponent : Bool)
    (tag : Js) (props : Option Js) (childrenEmpty : Bool)
    (childrenE : Except Panic String) (pf : Nat) (dyn : List String) :
    Except Panic String :=
  if dirsEmpty then
    genVnodeWithBlock isBlock disableTracking isComponent tag props childrenEmpty
      childrenE pf dyn
  else do
    let _inner ← genVnodeWithBlock isBlock disableTracking isComponent tag props
      childrenEmpty childrenE pf dyn
    .error (.todoGen "runtime_dirs_to_js_arr")

/-- A runtime directive tuple; its array construction is `todo!()` in the
source, so only presence matters. -/
structure RuntimeDir where
  unit : Unit

mutual

/-- IRNode, from `crate::converter` (not under `src/`). Modelled from the
spec's data model; payloads of the node kinds whose generation is
`todo!()` in `codegen.rs` are dropped, the generator never reads them. -/
inductive IRNode where
  | TextCall (texts : List Js)
  | If
  | For
  | VNodeCall (v : VNodeIR)
  | RenderSlotCall
  | VSlotUse
  | CommentCall (c : String)
  | AlterableSlot

/-- VNodeIR, from `crate::converter` (not under `src/`). Modelled from
the spec's data model: tag expr, optional props expr, ordered children,
directive list, patch-flag bitset, dynamic-prop-name list, and the flags
is_component, is_block, disable_tracking. -/
inductive VNodeIR where
  | mk (tag : Js) (props : Option Js) (children : List IRNode)
      (directives : List RuntimeDir) (patchFlag : Nat) (dynamicProps : List String)
      (isComponent : Bool) (isBlock : Bool) (disableTracking : Bool)

end

mutual

/-- `generate_ir` of `codegen.rs`: dispatch on the node kind; the
conditional, loop, slot and comment branches are `todo!()`. -/
def genIr : IRNode → Except Panic String
  | .TextCall ts => generateText ts
  | .If => .error (.todoGen "generate_if")
  | .For => .error (.todoGen "generate_for")
  | .RenderSlotCall => .error (.todoGen "generate_slot_outlet")
  | .VSlotUse => .error (.todoGen "generate_v_slot")
  | .CommentCall _ => .error (.todoGen "generate_comment")
  | .AlterableSlot => .error (.todoGen "generate_alterable_slot")
  | .VNodeCall (.mk tag props children dirs pf dyn isC isB dT) =>
    genVnodeWithDir dirs.isEmpty isB dT isC tag props children.isEmpty
      (genChildren children) pf dyn

/-- The children loop of the vnode argument list:
`for child in children { gen.generate_ir(child)?; }`. -/
def genChildren : List IRNode → Except Panic String
  | [] => .ok ""
  | c :: rest => do
    .ok ((← genIr c) ++ (← genChildren rest))

end

/-- IRRoot: the body the root generator consumes (the other fields feed
only `todo!()` asset resolution). -/
structure IRRoot where
  body : List IRNode

/-- One indentation-aware newline: `"\n"` plus two spaces per level. -/
def newlineText (level : Nat) : String :=
  "\n" ++ String.join (List.replicate level "  ")

/-- The prologue of `generate_root`: preamble `return `, the render
function signature, the `with (_ctx) {` block (each opening a bracket and
indenting), the (empty) asset section, then `return `. -/
def generatedPrologue : String :=
  "return " ++ "function render(_ctx, _cache) \x7b" ++ newlineText 1 ++
    "with (_ctx) \x7b" ++ newlineText 2 ++ "return "

/-- `generate_epilogue` of `codegen.rs`: per opened bracket, deindent
with a newline and close with `}`. -/
def epilogueLoop : Nat → Nat → String
  | 0, _ => ""
  | n + 1, level => newlineText (level - 1) ++ "\x7d" ++ epilogueLoop n (level - 1)

/-- `generate_root` of `codegen.rs`: prologue; then `null` for an empty
body, the sole child for a singleton body, else a synthetic
Fragment-tagged vnode wrapping all children; then the epilogue (after the
prologue two brackets are open at indent level 2). -/
def generateRoot (root : IRRoot) : Except Panic String := do
  let body ← match root.body with
    | [] => Except.ok "null"
    | [single] => genIr single
    | many =>
      genIr (IRNode.VNodeCall (VNodeIR.mk (Js.Symbol .Fragment) none many [] 0 []
        false false false))
  .ok (generatedPrologue ++ body ++ epilogueLoop 2 2)

/-! ## Shared concrete instances for witnesses and counterexamples -/

/-- Modelled from the spec: a fixed global allow-list of JS standard
globals (the spec names the capability, not the list; `_ctx` and user
identifiers are not globals). -/
def globalsAllowListed : List String :=
  ["Infinity", "undefined", "NaN", "isFinite", "isNaN", "parseFloat", "parseInt",
   "decodeURI", "decodeURIComponent", "encodeURI", "encodeURIComponent",
   "Math", "Number", "Date", "Array", "Object", "Boolean", "String",
   "RegExp", "Map", "Set", "JSON", "Intl", "BigInt", "console"]

/-- A concrete capability instance: list-based allow-list, no hoisted
assets, the member-chain parser, JS free-variable semantics. -/
def wCaps : Caps :=
  { isGlobalAllowListed := fun s => globalsAllowListed.contains s
    isHoistedAsset := fun _ => false
    parseJsExpr := miniParse
    walkFreeVariables := astFreeVars }

/-- Options with identifier rewriting on, non-inline, empty binding
table. -/
def plainOpts : TransformOption := ⟨true, false, []⟩

/-! ## Claim-side characterizations -/

/-- Claim-side: the highest 1-based index among true presence bits
(0 when none is true). -/
def highestPresentIdx : List Bool → Nat
  | [] => 0
  | c :: rest =>
    if highestPresentIdx rest = 0 then (if c then 1 else 0)
    else highestPresentIdx rest + 1

/-- Claim-side: each element preceded by a separator. -/
def joinPre (pre : String) : List String → String
  | [] => ""
  | s :: rest => pre ++ s ++ joinPre pre rest

/-- Claim-side: a comma-separated argument list. -/
def commaSep : List String → String
  | [] => ""
  | a :: rest => a ++ joinPre ", " rest

/-- Claim-side: the five ordered presence bits of a vnode argument list
(tag always present; props iff set; children iff non-empty; patch flag
iff non-empty bitset; dynamic-prop names iff non-empty). -/
def vnodePresence (props : Option Js) (children : List IRNode) (pf : Nat)
    (dyn : List String) : List Bool :=
  [true, props.isSome, !children.isEmpty, pf != 0, !dyn.isEmpty]

/-- Claim-side: the emitted argument texts -- present slots contribute
their value, absent slots below the highest present index contribute the
literal null, and nothing is emitted from that index on. -/
def vnodeArgStrings (conds : List Bool) (texts : List String) : List String :=
  ((conds.zip texts).take (highestPresentIdx conds)).map
    (fun p => if p.1 then p.2 else "null")

/-! ## C7 and C10 -/

/-- C7: the creation helper emitted for a vnode is selected exactly by
the block-by-component matrix -- block+component CreateBlock,
block+element CreateElementBlock, plain+component CreateVnode,
plain+element CreateElementVnode -- and `gen_vnode_real` emits exactly
the matrix-selected helper applied to the vnode argument list. -/
theorem claim_C7_helper_matrix :
    (vnodeCallHelper true true = RuntimeHelper.CreateBlock ∧
     vnodeCallHelper true false = RuntimeHelper.CreateElementBlock ∧
     vnodeCallHelper false true = RuntimeHelper.CreateVnode ∧
     vnodeCallHelper false false = RuntimeHelper.CreateElementVnode) ∧
    (∀ (isB isC : Bool) (tag : Js) (props : Option Js) (cEmpty : Bool)
      (cE : Except Panic String) (pf : Nat) (dyn : List String),
      genVnodeReal isB isC tag props cEmpty cE pf dyn =
        (genVnodeCallArgs tag props cEmpty cE pf dyn).map
          (fun args => writeHelper (vnodeCallHelper isB isC) ++ "(" ++ args ++ ")")) := by
  refine ⟨⟨rfl, rfl, rfl, rfl⟩, ?_⟩
  intro isB isC tag props cEmpty cE pf dyn
  unfold genVnodeReal
  cases h : genVnodeCallArgs tag props cEmpty cE pf dyn <;> rfl

/-- C10: an empty array emits exactly the text `[]`, a call with zero
arguments emits exactly `_<helperName>()`, and the comma-separated list
generator writes nothing and succeeds on the empty list. -/
theorem claim_C10_empty_lists :
    genJsExpr (Js.Array []) = .ok "[]" ∧
    (∀ h : RuntimeHelper, genJsExpr (Js.Call h []) = .ok ("_" ++ helperStr h ++ "()")) ∧
    genJsCommaList [] = .ok "" := by
  refine ⟨rfl, fun h => ?_, rfl⟩
  cases h <;> rfl

/-! ## C4 -/

/-- C4: at a slow-path text the external parser rejects, the code reaches
the `todo!("add error handler")` panic instead of surfacing a user-facing
diagnostic through the compilation result (the claim describes the
spec-mandated behavior; the code path is the bug). -/
theorem claim_C4_parse_failure_panics :
    wCaps.parseJsExpr "a +" = none ∧
    processExpression plainOpts wCaps emptyScope (Js.Simple "a +" .NotStatic) =
      .error Panic.todoErrorHandler := ⟨rfl, rfl⟩

/-! ## Dispatch lemmas for the expression processor -/

/-- With prefixing on and the expression not a hoisted asset, a fast-path
result is the processing result. -/
theorem processExpression_of_fast (opts : TransformOption) (caps : Caps) (scope : Scope)
    (v : String) (level : StaticLevel) (e2 : Js)
    (hpre : opts.prefixIdentifier = true)
    (hh : caps.isHoistedAsset (Js.Simple v level) = false)
    (hf : processExprFast opts caps scope (Js.Simple v level) = some e2) :
    processExpression opts caps scope (Js.Simple v level) = .ok e2 := by
  simp [processExpression, hpre, hh, hf]

/-- With prefixing on and the fast path declining, processing falls
through to the JS-parser slow path. -/
theorem processExpression_of_slow (opts : TransformOption) (caps : Caps) (scope : Scope)
    (v : String) (level : StaticLevel)
    (hpre : opts.prefixIdentifier = true)
    (hh : caps.isHoistedAsset (Js.Simple v level) = false)
    (hf : processExprFast opts caps scope (Js.Simple v level) = none) :
    processExpression opts caps scope (Js.Simple v level) =
      processWithJsParser opts caps scope (Js.Simple v level) := by
  simp [processExpression, hpre, hh, hf]

/-- The fast path on a genuine binding reference (bare identifier, not in
scope, not allow-listed, not a literal): the binding rewrite at the
possibly-relaxed level. -/
theorem processExprFast_rewrites (opts : TransformOption) (caps : Caps) (scope : Scope)
    (v : String) (level : StaticLevel)
    (hid : isSimpleIdentifier v = true) (hsc : scope.hasIdentifier v = false)
    (hg : caps.isGlobalAllowListed v = false) (hlit : isLiteralKeyword v = false) :
    processExprFast opts caps scope (Js.Simple v level) =
      some (rewriteIdentifier opts v
        (match opts.get v with
         | some BindingTypes.SetupConst => StaticLevel.CanSkipPatch
         | _ => level) CtxType.NoWrite) := by
  simp [processExprFast, hid, hsc, hg, hlit]

/-- The slow path is the broken-down-and-reunited expression. -/
theorem processWithJsParser_map (opts : TransformOption) (caps : Caps) (scope : Scope)
    (v : String) (level : StaticLevel) :
    processWithJsParser opts caps scope (Js.Simple v level) =
      (breakDownComplexExpression opts caps v scope).map (reuniteAtoms opts v) := by
  cases h : breakDownComplexExpression opts caps v scope with
  | error e => simp [processWithJsParser, h, Except.map, Bind.bind, Except.bind]
  | ok a => simp [processWithJsParser, h, Except.map, Bind.bind, Except.bind]

/-- When the parse succeeds, breakdown is the sorted atom collection. -/
theorem breakDown_parse_some (opts : TransformOption) (caps : Caps) (raw : String)
    (scope : Scope) (ast : JsAst) (hparse : caps.parseJsExpr raw = some ast) :
    breakDownComplexExpression opts caps raw scope =
      (collectAtoms opts caps raw scope (caps.walkFreeVariables ast)).map sortByStart := by
  cases h : collectAtoms opts caps raw scope (caps.walkFreeVariables ast) with
  | error e =>
    simp [breakDownComplexExpression, hparse, h, Except.map, Bind.bind, Except.bind]
  | ok a =>
    simp [breakDownComplexExpression, hparse, h, Except.map, Bind.bind, Except.bind]

/-! ## C1 -/

/-- C1: a bare identifier out of scope, not allow-listed and not a
literal is rewritten per the binding-rewrite table: no entry produces
`_ctx.<v>`; with a binding entry (inline mode) processing applies
`rewrite_inline_identifier`, whose value per kind and write context is:
SetupConst the identifier unchanged; SetupRef `v.value`; SetupMaybeRef
`unref(v)` on read and `v.value` on any write; SetupLet the
`isRef(v) ? v.value<op> : v<op>` conditional on assign/update with
pre/post operator placement preserved, the identifier unrewritten as a
destructure target, and `unref(v)` on read; Props `__props.v`; Data and
Options `_ctx.v`. -/
theorem claim_C1_binding_rewrite_table (opts : TransformOption) (caps : Caps)
    (scope : Scope) (v : String) (level : StaticLevel) (ctx : CtxType) (assign op : Js)
    (hpre : opts.prefixIdentifier = true)
    (hh : caps.isHoistedAsset (Js.Simple v level) = false)
    (hid : isSimpleIdentifier v = true)
    (hsc : scope.hasIdentifier v = false)
    (hg : caps.isGlobalAllowListed v = false)
    (hlit : isLiteralKeyword v = false) :
    (opts.get v = none →
      processExpression opts caps scope (Js.Simple v level) =
        .ok (Js.Simple ("_ctx." ++ v) StaticLevel.NotStatic)) ∧
    (∀ k, opts.get v = some k → opts.inline = true →
      processExpression opts caps scope (Js.Simple v level) =
        .ok (rewriteInlineIdentifier v
          (if k = BindingTypes.SetupConst then StaticLevel.CanSkipPatch else level)
          k CtxType.NoWrite)) ∧
    rewriteInlineIdentifier v level .SetupConst ctx = Js.Simple v level ∧
    rewriteInlineIdentifier v level .SetupRef ctx =
      Js.Compound [Js.Simple v level, Js.Src ".value"] ∧
    rewriteInlineIdentifier v level .SetupMaybeRef CtxType.NoWrite =
      Js.Call .Unref [Js.Simple v level] ∧
    (ctx ≠ CtxType.NoWrite → rewriteInlineIdentifier v level .SetupMaybeRef ctx =
      Js.Compound [Js.Simple v level, Js.Src ".value"]) ∧
    rewriteInlineIdentifier v level .SetupLet (CtxType.Assign assign) =
      Js.Compound [Js.Call .IsRef [Js.Simple v level], Js.Src "? ",
        Js.Compound [Js.Simple v level, Js.Src ".value"], assign, Js.Src ": ",
        Js.Simple v level, assign] ∧
    rewriteInlineIdentifier v level .SetupLet (CtxType.Update true op) =
      Js.Compound [Js.Call .IsRef [Js.Simple v level], Js.Src "? ",
        op, Js.Compound [Js.Simple v level, Js.Src ".value"], Js.Src ": ",
        op, Js.Simple v level] ∧
    rewriteInlineIdentifier v level .SetupLet (CtxType.Update false op) =
      Js.Compound [Js.Call .IsRef [Js.Simple v level], Js.Src "? ",
        Js.Compound [Js.Simple v level, Js.Src ".value"], op, Js.Src ": ",
        Js.Simple v level, op] ∧
    rewriteInlineIdentifier v level .SetupLet CtxType.Destructure = Js.Simple v level ∧
    rewriteInlineIdentifier v level .SetupLet CtxType.NoWrite =
      Js.Call .Unref [Js.Simple v level] ∧
    rewriteInlineIdentifier v level .Props ctx =
      Js.Compound [Js.Src "__props.", Js.Simple v level] ∧
    rewriteInlineIdentifier v level .Data ctx =
      Js.Compound [Js.Src "_ctx.", Js.Simple v level] ∧
    rewriteInlineIdentifier v level .Options ctx =
      Js.Compound [Js.Src "_ctx.", Js.Simple v level] := by
  have hfast := processExprFast_rewrites opts caps scope v level hid hsc hg hlit
  refine ⟨?_, ?_, rfl, rfl, rfl, ?_, rfl, rfl, rfl, rfl, rfl, rfl, rfl, rfl⟩
  · intro hget
    rw [processExpression_of_fast opts caps scope v level _ hpre hh hfast]
    rw [hget] at hfast ⊢
    simp [rewriteIdentifier, hget, Js.simple, prefixCtx]
  · intro k hget hinl
    rw [processExpression_of_fast opts caps scope v level _ hpre hh hfast]
    rw [hget]
    simp only [rewriteIdentifier, hget, hinl, if_true]
    cases k <;> simp
  · intro hctx
    cases ctx <;> first | rfl | exact absurd rfl hctx

/-- C1 witness: with an inline SetupRef binding for `count`, processing
the bare identifier yields `count.value`. -/
theorem claim_C1_witness :
    processExpression ⟨true, true, [("count", BindingTypes.SetupRef)]⟩ wCaps emptyScope
        (Js.Simple "count" StaticLevel.NotStatic) =
      .ok (Js.Compound [Js.Simple "count" StaticLevel.NotStatic, Js.Src ".value"]) :=
  (claim_C1_binding_rewrite_table ⟨true, true, [("count", BindingTypes.SetupRef)]⟩
    wCaps emptyScope "count" StaticLevel.NotStatic CtxType.NoWrite (Js.Src "") (Js.Src "")
    rfl rfl (by decide) rfl rfl (by decide)).2.1 BindingTypes.SetupRef rfl rfl

/-! ## C5 -/

/-- C5: for a bare identifier, an in-scope reference is left entirely
unchanged (text and level); one that is out of scope but allow-listed or
a literal keeps its text and gets level CanStringify for
true/false/null/this and CanHoist for any other allow-listed global. -/
theorem claim_C5_fast_path (opts : TransformOption) (caps : Caps) (scope : Scope)
    (v : String) (level : StaticLevel)
    (hpre : opts.prefixIdentifier = true)
    (hh : caps.isHoistedAsset (Js.Simple v level) = false)
    (hid : isSimpleIdentifier v = true) :
    (scope.hasIdentifier v = true →
      processExpression opts caps scope (Js.Simple v level) =
        .ok (Js.Simple v level)) ∧
    (scope.hasIdentifier v = false →
      (caps.isGlobalAllowListed v = true ∨ isLiteralKeyword v = true) →
      processExpression opts caps scope (Js.Simple v level) =
        .ok (Js.Simple v
          (if isLiteralKeyword v then StaticLevel.CanStringify
           else StaticLevel.CanHoist))) := by
  constructor
  · intro hsc
    have hf : processExprFast opts caps scope (Js.Simple v level) =
        some (Js.Simple v level) := by
      simp [processExprFast, hid, hsc]
    exact processExpression_of_fast opts caps scope v level _ hpre hh hf
  · intro hsc hal
    have hf : processExprFast opts caps scope (Js.Simple v level) =
        some (Js.Simple v
          (if isLiteralKeyword v then StaticLevel.CanStringify
           else StaticLevel.CanHoist)) := by
      rcases hal with hg | hl
      · simp [processExprFast, hid, hsc, hg]
      · simp [processExprFast, hid, hsc, hl]
    exact processExpression_of_fast opts caps scope v level _ hpre hh hf

/-- C5 witness: an in-scope `x` is untouched; the allow-listed global
`Math` keeps its text and is bumped to CanHoist; the literal `true` is
bumped to CanStringify. -/
theorem claim_C5_witness :
    processExpression plainOpts wCaps ⟨["x"]⟩ (Js.Simple "x" StaticLevel.NotStatic) =
      .ok (Js.Simple "x" StaticLevel.NotStatic) ∧
    processExpression plainOpts wCaps emptyScope (Js.Simple "Math" StaticLevel.NotStatic) =
      .ok (Js.Simple "Math" StaticLevel.CanHoist) ∧
    processExpression plainOpts wCaps emptyScope (Js.Simple "true" StaticLevel.NotStatic) =
      .ok (Js.Simple "true" StaticLevel.CanStringify) :=
  ⟨(claim_C5_fast_path plainOpts wCaps ⟨["x"]⟩ "x" StaticLevel.NotStatic rfl rfl
      (by decide)).1 rfl,
   (claim_C5_fast_path plainOpts wCaps emptyScope "Math" StaticLevel.NotStatic rfl rfl
      (by decide)).2 rfl (Or.inl rfl),
   (claim_C5_fast_path plainOpts wCaps emptyScope "true" StaticLevel.NotStatic rfl rfl
      (by decide)).2 rfl (Or.inr rfl)⟩

/-! ## C3 -/

/-- C3 counterexample: feeding the already-rewritten text `_ctx.x`
through the slow path rewrites the free base identifier `_ctx` and yields
`_ctx._ctx.x`, an output that does contain a second `_ctx.` prefix in
front of the already-prefixed expression. -/
theorem claim_C3_counterexample :
    processExpression plainOpts wCaps emptyScope (Js.Simple "_ctx.x" StaticLevel.NotStatic) =
      .ok (Js.Compound [Js.Simple "_ctx._ctx" StaticLevel.NotStatic, Js.Src ".x"]) ∧
    genJsExpr (Js.Compound [Js.Simple "_ctx._ctx" StaticLevel.NotStatic, Js.Src ".x"]) =
      .ok "_ctx._ctx.x" := ⟨rfl, rfl⟩

/-- C3 amended: re-processing any expression with the prefix-identifiers
option disabled is a no-op; but feeding the text `_ctx.x` through the
slow path does double-prefix -- the free base identifier `_ctx` (out of
scope, not allow-listed, no binding entry) is itself rewritten to
`_ctx._ctx`, so the output is `_ctx._ctx.x`. -/
theorem claim_C3_amended :
    (∀ (opts : TransformOption) (caps : Caps) (scope : Scope) (e : Js),
      opts.prefixIdentifier = false → processExpression opts caps scope e = .ok e) ∧
    (∀ (opts : TransformOption) (caps : Caps) (scope : Scope) (ast : JsAst)
        (level : StaticLevel),
      opts.prefixIdentifier = true → opts.inline = false →
      opts.get "_ctx" = none →
      caps.isHoistedAsset (Js.Simple "_ctx.x" level) = false →
      caps.parseJsExpr "_ctx.x" = some ast →
      caps.walkFreeVariables ast = [⟨"_ctx", 0, 4⟩] →
      caps.isGlobalAllowListed "_ctx" = false →
      scope.hasIdentifier "_ctx" = false →
      processExpression opts caps scope (Js.Simple "_ctx.x" level) =
        .ok (Js.Compound [Js.Simple "_ctx._ctx" StaticLevel.NotStatic, Js.Src ".x"])) := by
  constructor
  · intro opts caps scope e h
    simp [processExpression, h]
  · intro opts caps scope ast level hpre hinl hget hhoist hparse hwalk hglob hscope
    have hsid : isSimpleIdentifier "_ctx.x" = false := by decide
    have hf : processExprFast opts caps scope (Js.Simple "_ctx.x" level) = none := by
      simp [processExprFast, hsid]
    rw [processExpression_of_slow opts caps scope "_ctx.x" level hpre hhoist hf,
      processWithJsParser_map, breakDown_parse_some opts caps "_ctx.x" scope ast hparse,
      hwalk]
    have hcoll : collectAtoms opts caps "_ctx.x" scope [⟨"_ctx", 0, 4⟩] =
        .ok [⟨0, 4, "_ctx", CtxType.NoWrite⟩] := by
      simp [collectAtoms, hglob, hinl,
        (show strSlice "_ctx.x" 0 4 = "_ctx" from rfl), hscope,
        (show ("_ctx" == "require") = false from rfl), Bind.bind, Except.bind]
    rw [hcoll]
    have hsort : sortByStart [⟨0, 4, "_ctx", CtxType.NoWrite⟩] =
        [⟨0, 4, "_ctx", CtxType.NoWrite⟩] := rfl
    have hre : reuniteAtoms opts "_ctx.x" [⟨0, 4, "_ctx", CtxType.NoWrite⟩] =
        Js.Compound [rewriteIdentifier opts "_ctx" StaticLevel.NotStatic CtxType.NoWrite,
          Js.Src ".x"] := by
      simp [reuniteAtoms, reuniteInner,
        (show ("_ctx.x").data.length = 6 from rfl),
        (show strSliceFrom "_ctx.x" 4 = ".x" from rfl)]
    have hrw : rewriteIdentifier opts "_ctx" StaticLevel.NotStatic CtxType.NoWrite =
        Js.Simple "_ctx._ctx" StaticLevel.NotStatic := by
      simp [rewriteIdentifier, hget, Js.simple, prefixCtx]
    simp [Except.map, hsort, hre, hrw]

/-- C3 witness: disabled-option processing leaves an expression alone,
and the concrete slow-path run on `_ctx.x` yields the double-prefixed
compound. -/
theorem claim_C3_witness :
    processExpression ⟨false, false, []⟩ wCaps emptyScope
        (Js.Simple "y" StaticLevel.NotStatic) =
      .ok (Js.Simple "y" StaticLevel.NotStatic) ∧
    processExpression plainOpts wCaps emptyScope (Js.Simple "_ctx.x" StaticLevel.NotStatic) =
      .ok (Js.Compound [Js.Simple "_ctx._ctx" StaticLevel.NotStatic, Js.Src ".x"]) :=
  ⟨claim_C3_amended.1 ⟨false, false, []⟩ wCaps emptyScope
      (Js.Simple "y" StaticLevel.NotStatic) rfl,
   claim_C3_amended.2 plainOpts wCaps emptyScope
      (JsAst.member (JsAst.ident "_ctx" 0) "x") StaticLevel.NotStatic
      rfl rfl rfl rfl rfl rfl rfl rfl⟩

/-! ## C8 -/

/-- C8: the generated render body returns `null` for an empty IR body,
the sole child's generated form for a singleton body, and a synthetic
Fragment-tagged vnode wrapping all body children in order for two or
more children; the prologue and epilogue are the fixed render-function
scaffolding. -/
theorem claim_C8_root_shape (root : IRRoot) :
    generatedPrologue =
      "return function render(_ctx, _cache) \x7b\n  with (_ctx) \x7b\n    return " ∧
    epilogueLoop 2 2 = "\n  \x7d\n\x7d" ∧
    (root.body = [] →
      generateRoot root = .ok (generatedPrologue ++ "null" ++ epilogueLoop 2 2)) ∧
    (∀ c, root.body = [c] →
      generateRoot root =
        (genIr c).map (fun s => generatedPrologue ++ s ++ epilogueLoop 2 2)) ∧
    (∀ c1 c2 rest, root.body = c1 :: c2 :: rest →
      generateRoot root =
        (genIr (IRNode.VNodeCall (VNodeIR.mk (Js.Symbol .Fragment) none root.body
            [] 0 [] false false false))).map
          (fun s => generatedPrologue ++ s ++ epilogueLoop 2 2)) := by
  obtain ⟨body⟩ := root
  refine ⟨rfl, rfl, ?_, ?_, ?_⟩
  · rintro rfl
    rfl
  · rintro c rfl
    cases h : genIr c with
    | error e => simp [generateRoot, h, Except.map, Bind.bind, Except.bind]
    | ok s => simp [generateRoot, h, Except.map, Bind.bind, Except.bind]
  · rintro c1 c2 rest rfl
    cases h : genIr (IRNode.VNodeCall (VNodeIR.mk (Js.Symbol .Fragment) none
        (c1 :: c2 :: rest) [] 0 [] false false false)) with
    | error e => simp [generateRoot, h, Except.map, Bind.bind, Except.bind]
    | ok s => simp [generateRoot, h, Except.map, Bind.bind, Except.bind]

/-- C8 witness: the empty body returns `null`, and a two-child body goes
through the synthetic Fragment vnode. -/
theorem claim_C8_witness :
    generateRoot ⟨[]⟩ = .ok (generatedPrologue ++ "null" ++ epilogueLoop 2 2) ∧
    generateRoot ⟨[IRNode.TextCall [Js.StrLit "a"], IRNode.TextCall [Js.StrLit "b"]]⟩ =
      (genIr (IRNode.VNodeCall (VNodeIR.mk (Js.Symbol .Fragment) none
          [IRNode.TextCall [Js.StrLit "a"], IRNode.TextCall [Js.StrLit "b"]]
          [] 0 [] false false false))).map
        (fun s => generatedPrologue ++ s ++ epilogueLoop 2 2) :=
  ⟨(claim_C8_root_shape ⟨[]⟩).2.2.1 rfl,
   (claim_C8_root_shape ⟨[IRNode.TextCall [Js.StrLit "a"],
      IRNode.TextCall [Js.StrLit "b"]]⟩).2.2.2.2 (IRNode.TextCall [Js.StrLit "a"])
      (IRNode.TextCall [Js.StrLit "b"]) [] rfl⟩

/-! ## C2 -/

/-- Pass 1 of the macro computes the claim-side highest present 1-based
index. -/
theorem argsPass1_eq (slots : List (Bool × Except Panic String)) :
    argsPass1 slots = highestPresentIdx (slots.map (fun s => s.1)) := by
  have go : ∀ (l : List (Bool × Except Panic String)) (j i0 : Nat),
      (l.foldl (fun (p : Nat × Nat) s => (p.1 + 1, if s.1 then p.1 + 1 else p.2))
          (j, i0)).2 =
        if highestPresentIdx (l.map (fun s => s.1)) = 0 then i0
        else j + highestPresentIdx (l.map (fun s => s.1)) := by
    intro l
    induction l with
    | nil => intro j i0; simp [highestPresentIdx]
    | cons hd tl ih =>
      intro j i0
      obtain ⟨c, es⟩ := hd
      simp only [List.foldl_cons, List.map_cons, highestPresentIdx]
      rw [ih]
      by_cases h0 : highestPresentIdx (tl.map (fun s => s.1)) = 0
      · rw [h0]
        cases c <;> simp
      · have h1 : highestPresentIdx (tl.map (fun s => s.1)) + 1 ≠ 0 :=
          Nat.succ_ne_zero _
        simp only [if_neg h0, if_neg h1]
        omega
  have h := go slots 0 0
  unfold argsPass1
  rw [h]
  split <;> omega

/-- The highest present index never exceeds the slot count. -/
theorem highestPresentIdx_le (conds : List Bool) :
    highestPresentIdx conds ≤ conds.length := by
  induction conds with
  | nil => simp [highestPresentIdx]
  | cons c rest ih =>
    simp only [highestPresentIdx, List.length_cons]
    split
    · cases c <;> simp
    · omega

/-- At or past the highest present index every presence bit is false. -/
theorem highestPresentIdx_getD_false (conds : List Bool) (k : Nat)
    (h : highestPresentIdx conds ≤ k) : conds.getD k false = false := by
  induction conds generalizing k with
  | nil => simp
  | cons c rest ih =>
    cases k with
    | zero =>
      simp only [highestPresentIdx] at h
      by_cases h0 : highestPresentIdx rest = 0
      · rw [if_pos h0] at h
        cases c
        · simp
        · simp at h
      · rw [if_neg h0] at h; omega
    | succ k =>
      have hrest : highestPresentIdx rest ≤ k := by
        simp only [highestPresentIdx] at h
        by_cases h0 : highestPresentIdx rest = 0
        · omega
        · rw [if_neg h0] at h; omega
      simpa using ih k hrest

/-- Pass 2 over already-generated slot texts, past the first slot: the
comma-led sequence over the slots kept below index `i`, with the literal
null for absent slots. -/
theorem argsPass2_pure (i : Nat) (ps : List (Bool × String)) :
    ∀ j : Nat, 1 ≤ j →
      (∀ k, i ≤ j + k → (ps.map (fun p => p.1)).getD k false = false) →
      argsPass2 i j (ps.map (fun p => (p.1, Except.ok p.2))) =
        .ok (joinPre ", "
          ((ps.take (i - j)).map (fun p => if p.1 then p.2 else "null"))) := by
  induction ps with
  | nil => intro j hj hno; simp [argsPass2, joinPre]
  | cons hd tl ih =>
    intro j hj hno
    have hno' : ∀ k, i ≤ (j + 1) + k → (tl.map (fun p => p.1)).getD k false = false := by
      intro k hk
      have := hno (k + 1) (by omega)
      simpa using this
    simp only [List.map_cons, argsPass2]
    cases hc : hd.1 with
    | true =>
      have hji : j < i := by
        by_contra hle
        have := hno 0 (by omega)
        simp [hc] at this
      rw [ih (j + 1) (by omega) hno']
      have htake : i - j = (i - (j + 1)) + 1 := by omega
      rw [htake, List.take_succ_cons, List.map_cons]
      simp only [hc, if_true, joinPre]
      have hcomma : (if 0 < j then ", " else "") = ", " := if_pos (by omega)
      simp [Bind.bind, Except.bind, hcomma]
    | false =>
      by_cases hji : j < i
      · rw [if_pos hji, ih (j + 1) (by omega) hno']
        have htake : i - j = (i - (j + 1)) + 1 := by omega
        rw [htake, List.take_succ_cons, List.map_cons]
        simp only [hc, if_false, joinPre]
        simp [Bind.bind, Except.bind,
          (show (", null" : String) = ", " ++ "null" from rfl)]
      · rw [if_neg hji]
        have htake : i - j = 0 := by omega
        simp [htake, joinPre]

/-- The two-pass macro on a pure slot list whose first predicate is true
(the tag slot): a comma-separated argument list, absent slots below the
highest present index emitted as null, nothing at or beyond it. -/
theorem genVnodeArgsRun_pure (t : String) (rest : List (Bool × String)) :
    genVnodeArgsRun (((true, t) :: rest).map (fun p => (p.1, Except.ok p.2))) =
      .ok (commaSep ((((true, t) :: rest).take
          (highestPresentIdx (((true, t) :: rest).map (fun p => p.1)))).map
        (fun p => if p.1 then p.2 else "null"))) := by
  have hmap1 : ((((true, t) :: rest).map (fun p => (p.1, Except.ok (ε := Panic) p.2))).map
      (fun s => s.1)) = ((true, t) :: rest).map (fun p => p.1) := by
    simp
  unfold genVnodeArgsRun
  rw [argsPass1_eq, hmap1]
  set i := highestPresentIdx (((true, t) :: rest).map (fun p => p.1)) with hi
  have hi1 : 1 ≤ i := by
    rw [hi]
    simp only [List.map_cons, highestPresentIdx]
    split
    · simp
    · omega
  have hno : ∀ k, i ≤ 1 + k → (rest.map (fun p => p.1)).getD k false = false := by
    intro k hk
    have h := highestPresentIdx_getD_false (((true, t) :: rest).map (fun p => p.1))
      (k + 1) (by omega)
    simpa using h
  simp only [List.map_cons, argsPass2]
  rw [argsPass2_pure i rest 1 (by omega) hno]
  have htake : i = (i - 1) + 1 := by omega
  rw [htake, List.take_succ_cons, List.map_cons]
  simp only [if_true, commaSep]
  simp [Bind.bind, Except.bind]

/-- C2: for every vnode whose present slots generate successfully, the
emitted argument list is comma-separated in slot order, has exactly `h`
arguments where `h` is the highest 1-based present index (tag always
present, props iff set, children iff non-empty, patch flag iff non-zero,
dynamic-prop names iff non-empty), each absent slot below `h` is the
literal null, and nothing is emitted at or beyond `h`. -/
theorem claim_C2_trailing_elision (tag : Js) (props : Option Js)
    (children : List IRNode) (pf : Nat) (dyn : List String)
    (tagS propsS childS dynS : String)
    (htag : genJsExpr tag = .ok tagS)
    (hprops : genVnodePropsSlot props = .ok propsS)
    (hchild : genChildren children = .ok childS)
    (hdyn : genJsExpr (Js.Array (dyn.map Js.StrLit)) = .ok dynS) :
    genVnodeCallArgs tag props children.isEmpty (genChildren children) pf dyn =
      .ok (commaSep (vnodeArgStrings (vnodePresence props children pf dyn)
        [tagS, propsS, childS, patchFlagText pf, dynS])) ∧
    (vnodeArgStrings (vnodePresence props children pf dyn)
        [tagS, propsS, childS, patchFlagText pf, dynS]).length =
      highestPresentIdx (vnodePresence props children pf dyn) := by
  have hzip : (vnodePresence props children pf dyn).zip
      [tagS, propsS, childS, patchFlagText pf, dynS] =
      (true, tagS) :: [(props.isSome, propsS), (!children.isEmpty, childS),
        (pf != 0, patchFlagText pf), (!dyn.isEmpty, dynS)] := rfl
  have hconds : ((true, tagS) :: [(props.isSome, propsS), (!children.isEmpty, childS),
      (pf != 0, patchFlagText pf), (!dyn.isEmpty, dynS)]).map (fun p => p.1) =
      vnodePresence props children pf dyn := rfl
  constructor
  · unfold genVnodeCallArgs
    rw [htag, hprops, hchild, hdyn]
    have hlist : [(true, Except.ok (ε := Panic) tagS), (props.isSome, Except.ok propsS),
        (!children.isEmpty, Except.ok childS),
        (pf != 0, Except.ok (patchFlagText pf)), (!dyn.isEmpty, Except.ok dynS)] =
        ((true, tagS) :: [(props.isSome, propsS), (!children.isEmpty, childS),
          (pf != 0, patchFlagText pf), (!dyn.isEmpty, dynS)]).map
          (fun p => (p.1, Except.ok p.2)) := rfl
    rw [hlist, genVnodeArgsRun_pure]
    unfold vnodeArgStrings
    rw [hzip, hconds]
  · unfold vnodeArgStrings
    rw [hzip]
    have hle := highestPresentIdx_le (vnodePresence props children pf dyn)
    have hlen : (vnodePresence props children pf dyn).length = 5 := rfl
    rw [hlen] at hle
    simp only [List.length_map, List.length_take, List.length_cons, List.length_nil]
    omega

/-- C2 witness: a tag-only vnode with patch flag 8 emits four arguments,
nulls filling the absent props and children slots, nothing beyond. -/
theorem claim_C2_witness :
    genVnodeCallArgs (Js.StrLit "div") none ([] : List IRNode).isEmpty
        (genChildren ([] : List IRNode)) 8 ([] : List String) =
      .ok "\"div\", null, null, 8 /*PROPS*/" ∧
    (vnodeArgStrings (vnodePresence none [] 8 [])
        ["\"div\"", "", "", patchFlagText 8, "[]"]).length = 4 :=
  ⟨(claim_C2_trailing_elision (Js.StrLit "div") none [] 8 [] "\"div\"" "" "" "[]"
      rfl rfl rfl rfl).1,
   (claim_C2_trailing_elision (Js.StrLit "div") none [] 8 [] "\"div\"" "" "" "[]"
      rfl rfl rfl rfl).2⟩

/-! ## C6 -/

/-- Claim-side: a free-variable reference survives the discard step iff
it is not global-allow-listed, not `require`, and its source slice is
not in the template scope. -/
def keepFreeVar (caps : Caps) (scope : Scope) (raw : String) (fv : FreeVar) : Bool :=
  !(caps.isGlobalAllowListed fv.text || fv.text == "require") &&
    !(scope.hasIdentifier (strSlice raw fv.start fv.stop))

/-- Claim-side: the atom a surviving reference becomes in the read
(non-inline) case. -/
def mkAtom (raw : String) (fv : FreeVar) : Atom :=
  ⟨fv.start, fv.stop, strSlice raw fv.start fv.stop, CtxType.NoWrite⟩

/-- Claim-side: the surviving references, in walker order. -/
def survivingAtoms (caps : Caps) (scope : Scope) (raw : String)
    (fvs : List FreeVar) : List Atom :=
  (fvs.filter (keepFreeVar caps scope raw)).map (mkAtom raw)

/-- The collection loop keeps exactly the non-discarded references, in
walker order. -/
theorem collectAtoms_filter (opts : TransformOption) (caps : Caps) (raw : String)
    (scope : Scope) (hinl : opts.inline = false) (fvs : List FreeVar) :
    collectAtoms opts caps raw scope fvs =
      .ok (survivingAtoms caps scope raw fvs) := by
  induction fvs with
  | nil => simp [collectAtoms, survivingAtoms]
  | cons fv rest ih =>
    by_cases hg : (caps.isGlobalAllowListed fv.text || fv.text == "require") = true
    · rw [show collectAtoms opts caps raw scope (fv :: rest) =
          collectAtoms opts caps raw scope rest from by simp [collectAtoms, hg]]
      rw [ih]
      simp [survivingAtoms, List.filter_cons, keepFreeVar, hg]
    · by_cases hs : scope.hasIdentifier (strSlice raw fv.start fv.stop) = true
      · simp only [collectAtoms, hg, if_false, hs, if_true, Bool.false_eq_true]
        rw [ih]
        simp [survivingAtoms, List.filter_cons, keepFreeVar, hg, hs]
      · simp only [collectAtoms, hg, hs, if_false, Bool.false_eq_true, hinl]
        rw [ih]
        simp [survivingAtoms, List.filter_cons, keepFreeVar, hg, hs, mkAtom,
          Bind.bind, Except.bind]

instance : IsTotal Atom (fun a b => a.start ≤ b.start) :=
  ⟨fun a b => Nat.le_total a.start b.start⟩

instance : IsTrans Atom (fun a b => a.start ≤ b.start) :=
  ⟨fun _ _ _ hab hbc => Nat.le_trans hab hbc⟩

/-- The stable sort orders atoms by ascending start offset. -/
theorem sortByStart_sorted (atoms : List Atom) :
    List.Sorted (fun a b => a.start ≤ b.start) (sortByStart atoms) :=
  List.sorted_insertionSort _ atoms

/-- The stable sort keeps exactly the collected atoms. -/
theorem sortByStart_perm (atoms : List Atom) :
    (sortByStart atoms).Perm atoms :=
  List.perm_insertionSort _ atoms

@[simp]
theorem isSrc_src (s : String) : (Js.Src s).isSrc = true := rfl

/-- A rewritten identifier is never a raw source slice. -/
theorem rewriteIdentifier_not_isSrc (opts : TransformOption) (raw : String)
    (level : StaticLevel) (ctx : CtxType) :
    (rewriteIdentifier opts raw level ctx).isSrc = false := by
  unfold rewriteIdentifier
  cases hb : opts.get raw with
  | none => simp [Js.simple, Js.isSrc]
  | some bind =>
    cases hi : opts.inline with
    | false => cases bind <;> simp [BindingTypes.getJsProp, Js.isSrc]
    | true =>
      cases bind <;> cases ctx <;>
        simp [rewriteInlineIdentifier, rewriteSetupLet, Js.isSrc]

/-- The non-slice elements of the rebuilt sequence are exactly the atoms'
rewrites, in atom order, each invoked at level NotStatic. -/
theorem reuniteInner_filter (opts : TransformOption) (raw : String) (last : Nat)
    (atoms : List Atom) :
    (reuniteInner opts raw last atoms).filter (fun e => !e.isSrc) =
      atoms.map (fun a =>
        rewriteIdentifier opts a.idStr StaticLevel.NotStatic a.ctxType) := by
  induction atoms generalizing last with
  | nil =>
    unfold reuniteInner
    split <;> simp
  | cons a rest ih =>
    unfold reuniteInner
    by_cases hgap : last < a.start
    · simp [hgap, List.filter_append, List.filter_cons,
        rewriteIdentifier_not_isSrc, ih]
    · simp [hgap, List.filter_cons, rewriteIdentifier_not_isSrc, ih]

/-- No two raw source slices are adjacent in the rebuilt sequence. -/
theorem reuniteInner_chain (opts : TransformOption) (raw : String) (last : Nat)
    (atoms : List Atom) :
    List.Chain' (fun e1 e2 => ¬(e1.isSrc = true ∧ e2.isSrc = true))
      (reuniteInner opts raw last atoms) := by
  induction atoms generalizing last with
  | nil =>
    unfold reuniteInner
    split
    · exact List.chain'_singleton _
    · exact List.chain'_nil
  | cons a rest ih =>
    unfold reuniteInner
    have hrw := rewriteIdentifier_not_isSrc opts a.idStr StaticLevel.NotStatic a.ctxType
    have hchain : List.Chain' (fun e1 e2 => ¬(e1.isSrc = true ∧ e2.isSrc = true))
        (rewriteIdentifier opts a.idStr StaticLevel.NotStatic a.ctxType ::
          reuniteInner opts raw a.stop rest) := by
      rw [List.chain'_cons']
      refine ⟨fun b _ hco => ?_, ih a.stop⟩
      rw [hrw] at hco
      exact Bool.false_ne_true hco.1
    by_cases hgap : last < a.start
    · simp only [hgap, if_true, List.singleton_append]
      rw [List.chain'_cons]
      refine ⟨fun hco => ?_, hchain⟩
      rw [hrw] at hco
      exact Bool.false_ne_true hco.2
    · simp only [hgap, if_false, List.nil_append]
      exact hchain

/-- C6: for a slow-path text whose parse succeeds (non-inline), the
references that are allow-listed, equal to `require`, or in the template
scope are discarded; the survivors are sorted by ascending start offset
(a permutation of the kept walker output); and the expression is rebuilt
as a compound whose non-slice elements are exactly the surviving
identifiers rewritten at level NotStatic in order, with no two raw
slices adjacent, every surviving atom carrying the read context. -/
theorem claim_C6_slow_path_rebuild (opts : TransformOption) (caps : Caps)
    (scope : Scope) (raw : String) (ast : JsAst) (level : StaticLevel)
    (hparse : caps.parseJsExpr raw = some ast)
    (hinl : opts.inline = false) :
    breakDownComplexExpression opts caps raw scope =
      .ok (sortByStart (survivingAtoms caps scope raw (caps.walkFreeVariables ast))) ∧
    List.Sorted (fun a b => a.start ≤ b.start)
      (sortByStart (survivingAtoms caps scope raw (caps.walkFreeVariables ast))) ∧
    (sortByStart (survivingAtoms caps scope raw (caps.walkFreeVariables ast))).Perm
      (survivingAtoms caps scope raw (caps.walkFreeVariables ast)) ∧
    processWithJsParser opts caps scope (Js.Simple raw level) =
      .ok (Js.Compound (reuniteInner opts raw 0
        (sortByStart (survivingAtoms caps scope raw (caps.walkFreeVariables ast))))) ∧
    (reuniteInner opts raw 0
        (sortByStart (survivingAtoms caps scope raw
          (caps.walkFreeVariables ast)))).filter (fun e => !e.isSrc) =
      (sortByStart (survivingAtoms caps scope raw (caps.walkFreeVariables ast))).map
        (fun a => rewriteIdentifier opts a.idStr StaticLevel.NotStatic a.ctxType) ∧
    List.Chain' (fun e1 e2 => ¬(e1.isSrc = true ∧ e2.isSrc = true))
      (reuniteInner opts raw 0
        (sortByStart (survivingAtoms caps scope raw (caps.walkFreeVariables ast)))) ∧
    (∀ a ∈ survivingAtoms caps scope raw (caps.walkFreeVariables ast),
      a.ctxType = CtxType.NoWrite) := by
  have hbd : breakDownComplexExpression opts caps raw scope =
      .ok (sortByStart (survivingAtoms caps scope raw (caps.walkFreeVariables ast))) := by
    rw [breakDown_parse_some opts caps raw scope ast hparse,
      collectAtoms_filter opts caps raw scope hinl]
    rfl
  refine ⟨hbd, sortByStart_sorted _, sortByStart_perm _, ?_, reuniteInner_filter _ _ _ _,
    reuniteInner_chain _ _ _ _, ?_⟩
  · rw [processWithJsParser_map, hbd]
    rfl
  · intro a ha
    simp only [survivingAtoms, List.mem_map] at ha
    obtain ⟨fv, _, rfl⟩ := ha
    rfl

/-- A table-backed capability instance for exercising the slow path on
`a+b`: the walker reports the two references deliberately out of start
order. -/
def c6Caps : Caps :=
  { isGlobalAllowListed := fun s => globalsAllowListed.contains s
    isHoistedAsset := fun _ => false
    parseJsExpr := fun s => if s == "a+b" then some (JsAst.ident "a+b" 0) else none
    walkFreeVariables := fun _ => [⟨"b", 2, 3⟩, ⟨"a", 0, 1⟩] }

/-- C6 witness: on `a+b` the two surviving references are sorted into
start order and the rebuilt compound interleaves the raw `+` slice. -/
theorem claim_C6_witness :
    breakDownComplexExpression plainOpts c6Caps "a+b" emptyScope =
      .ok [⟨0, 1, "a", CtxType.NoWrite⟩, ⟨2, 3, "b", CtxType.NoWrite⟩] ∧
    processWithJsParser plainOpts c6Caps emptyScope
        (Js.Simple "a+b" StaticLevel.NotStatic) =
      .ok (Js.Compound [Js.Simple "_ctx.a" StaticLevel.NotStatic, Js.Src "+",
        Js.Simple "_ctx.b" StaticLevel.NotStatic]) :=
  ⟨(claim_C6_slow_path_rebuild plainOpts c6Caps emptyScope "a+b"
      (JsAst.ident "a+b" 0) StaticLevel.NotStatic rfl rfl).1,
   (claim_C6_slow_path_rebuild plainOpts c6Caps emptyScope "a+b"
      (JsAst.ident "a+b" 0) StaticLevel.NotStatic rfl rfl).2.2.2.1⟩

/-! ## C9 -/

/-- A bounded slice of a positive-length range inside the text is a
non-empty string. -/
theorem strSlice_ne_empty (s : String) (a b : Nat) (h1 : a < b)
    (h2 : a < s.data.length) : strSlice s a b ≠ "" := by
  intro heq
  have hd : (strSlice s a b).data.length = 0 := by rw [heq]; rfl
  simp only [strSlice, List.length_take, List.length_drop] at hd
  omega

/-- A tail slice starting inside the text is a non-empty string. -/
theorem strSliceFrom_ne_empty (s : String) (a : Nat) (h : a < s.data.length) :
    strSliceFrom s a ≠ "" := by
  intro heq
  have hd : (strSliceFrom s a).data.length = 0 := by rw [heq]; rfl
  simp only [strSliceFrom, List.length_drop] at hd
  omega

/-- C9: every raw source slice element of the rebuilt sequence is
non-empty -- a slice is pushed only for a positive-length gap before an
atom's start or a positive-length tail after the last atom. -/
theorem claim_C9_no_empty_src (opts : TransformOption) (raw : String)
    (atoms : List Atom) (hin : ∀ a ∈ atoms, a.start ≤ raw.data.length) :
    ∀ s, Js.Src s ∈ reuniteInner opts raw 0 atoms → s ≠ "" := by
  suffices go : ∀ (last : Nat) (ats : List Atom),
      (∀ a ∈ ats, a.start ≤ raw.data.length) →
      ∀ s, Js.Src s ∈ reuniteInner opts raw last ats → s ≠ "" by
    exact go 0 atoms hin
  intro last ats
  induction ats generalizing last with
  | nil =>
    intro _ s hs
    unfold reuniteInner at hs
    by_cases htail : last < raw.data.length
    · rw [if_pos htail] at hs
      simp only [List.mem_singleton] at hs
      have hseq : s = strSliceFrom raw last := by injection hs
      rw [hseq]
      exact strSliceFrom_ne_empty raw last htail
    · rw [if_neg htail] at hs
      simp at hs
  | cons a rest ih =>
    intro hina s hs
    have hastart : a.start ≤ raw.data.length := hina a (List.mem_cons_self a rest)
    unfold reuniteInner at hs
    have hrw := rewriteIdentifier_not_isSrc opts a.idStr StaticLevel.NotStatic a.ctxType
    rw [List.mem_append, List.mem_cons] at hs
    rcases hs with hgapmem | heqrw | hrest
    · by_cases hgap : last < a.start
      · rw [if_pos hgap] at hgapmem
        simp only [List.mem_singleton] at hgapmem
        have hseq : s = strSlice raw last a.start := by injection hgapmem
        rw [hseq]
        exact strSlice_ne_empty raw last a.start hgap (by omega)
      · rw [if_neg hgap] at hgapmem
        simp at hgapmem
    · exfalso
      rw [← heqrw] at hrw
      simp [Js.isSrc] at hrw
    · exact ih a.stop (fun x hx => hina x (List.mem_cons_of_mem a hx)) s hrest

/-- C9 witness: in the rebuilt `a+b` sequence the raw slice `+` occurs
and is non-empty. -/
theorem claim_C9_witness :
    Js.Src "+" ∈ reuniteInner plainOpts "a+b" 0
      [⟨0, 1, "a", CtxType.NoWrite⟩, ⟨2, 3, "b", CtxType.NoWrite⟩] ∧
    ("+" : String) ≠ "" :=
  have hmem : Js.Src "+" ∈ reuniteInner plainOpts "a+b" 0
      [⟨0, 1, "a", CtxType.NoWrite⟩, ⟨2, 3, "b", CtxType.NoWrite⟩] :=
    show Js.Src "+" ∈ [Js.Simple "_ctx.a" StaticLevel.NotStatic, Js.Src "+",
        Js.Simple "_ctx.b" StaticLevel.NotStatic] from
      List.Mem.tail _ (List.Mem.head _)
  ⟨hmem,
   claim_C9_no_empty_src plainOpts "a+b"
     [⟨0, 1, "a", CtxType.NoWrite⟩, ⟨2, 3, "b", CtxType.NoWrite⟩]
     (by decide) "+" hmem⟩
